import Mathlib

/-!
Verification development for the ketos diagnostic-trace subsystem
(`src/ketos/trace.rs`): the `TraceItem` enumeration, the `Trace` aggregate,
the thread-local traceback registry, and the `NameDisplay` renderer.
-/

namespace Ketos

/-- Modelled from the spec: a Symbol Identifier (`Name` in the external `name`
module, absent from the visible sources) is an opaque, cheaply-copyable handle
to an interned name string; we represent the handle as a natural number. -/
abbrev Name := Nat

/-- Modelled from the spec: the symbol-resolution service (`NameStore` in the
external `name` module) maps a Symbol Identifier to its display string via
`get`; resolution is total. -/
structure NameStore where
  get : Name → String

/-- The closed set of traceable events, from `enum TraceItem` in
`src/ketos/trace.rs`. Each variant carries the `Name` fields of the source:
`(scope name, item name)`, or a single scope or item name. -/
inductive TraceItem where
  | CallCode (m n : Name)
  | CallExpr (m : Name)
  | CallLambda (m : Name)
  | CallMacro (m n : Name)
  | CallOperator (m n : Name)
  | CallSys (n : Name)
  | Define (m n : Name)
  | DefineConst (m n : Name)
  | DefineLambda (m : Name)
  | DefineMacro (m n : Name)
  | DefineStruct (m n : Name)
  | UseModule (m n : Name)
  deriving DecidableEq, Repr

/-- The `Trace` aggregate from `struct Trace`: an ordered list of items plus an
optional captured expression. The expression type `Value` lives in the external
`value` module, so the aggregate is parameterized over it (the trace subsystem
only stores and forwards expression values). -/
structure Trace (V : Type) where
  items : List TraceItem
  expr : Option V
  deriving DecidableEq, Repr

namespace Trace

/-- `Trace::new`: builds a trace directly from the item list and the optional
expression. -/
def new {V : Type} (items : List TraceItem) (expr : Option V) : Trace V :=
  { items := items, expr := expr }

/-- `Trace::single`: builds a trace from one item, via `Trace::new(vec![item], expr)`. -/
def single {V : Type} (item : TraceItem) (expr : Option V) : Trace V :=
  new [item] expr

/-- `Trace::take_expr`: `self.expr.take()` — returns the current expression and
leaves the expression slot empty. The Rust method mutates `self`; here the
post-state is returned explicitly as the second component. -/
def take_expr {V : Type} (t : Trace V) : Option V × Trace V :=
  (t.expr, { t with expr := none })

end Trace

/-- The per-thread slot of the traceback registry: the content of the
`thread_local! static TRACEBACK: RefCell<Option<Trace>>` cell for one thread. -/
abbrev Slot (V : Type) := Option (Trace V)

/-- `clear_traceback`: `*tb.borrow_mut() = None`. -/
def clear_traceback {V : Type} (_s : Slot V) : Slot V :=
  none

/-- `get_traceback`: `tb.borrow().clone()` — returns a clone of the stored
value (the clone of an immutable value is the value itself in this value-level
model) and leaves the slot unchanged. -/
def get_traceback {V : Type} (s : Slot V) : Option (Trace V) × Slot V :=
  (s, s)

/-- `set_traceback`: `*tb.borrow_mut() = Some(trace)` — installs the trace,
discarding any previous content of the slot. -/
def set_traceback {V : Type} (t : Trace V) (_s : Slot V) : Slot V :=
  some t

/-- `take_traceback`: `replace(&mut *tb.borrow_mut(), None)` — returns the
stored value and leaves the slot empty. -/
def take_traceback {V : Type} (s : Slot V) : Option (Trace V) × Slot V :=
  (s, none)

/-- An operation on the traceback registry, for stating laws over arbitrary
operation sequences: the four public entry points of `trace.rs`. -/
inductive RegOp (V : Type) where
  | clear
  | get
  | set (t : Trace V)
  | take

/-- Runs one registry operation against a single thread's slot, returning the
value the caller observes (for `get`/`take`) and the new slot content. -/
def slotStep {V : Type} (op : RegOp V) (s : Slot V) : Option (Trace V) × Slot V :=
  match op with
  | .clear => (none, clear_traceback s)
  | .get => get_traceback s
  | .set t => (none, set_traceback t s)
  | .take => take_traceback s

/-- Runs a sequence of registry operations against one slot, collecting the
observed values in order. -/
def runSlot {V : Type} : List (RegOp V) → Slot V → List (Option (Trace V)) × Slot V
  | [], s => ([], s)
  | op :: ops, s =>
      let p := slotStep op s
      let r := runSlot ops p.2
      (p.1 :: r.1, r.2)

/-- Thread identifiers, indexing the per-thread slots of the
`thread_local!` registry. -/
abbrev ThreadId := Nat

/-- The whole process-wide registry: one slot per thread, as created by
`thread_local!(static TRACEBACK: RefCell<Option<Trace>> = RefCell::new(None))`. -/
abbrev Registry (V : Type) := ThreadId → Slot V

/-- Runs one registry operation issued by thread `tid`: `TRACEBACK.with`
accesses the slot of the calling thread only. -/
def regStep {V : Type} (tid : ThreadId) (op : RegOp V) (r : Registry V) :
    Option (Trace V) × Registry V :=
  let p := slotStep op (r tid)
  (p.1, Function.update r tid p.2)

/-- Runs an interleaved script of registry operations, each tagged with the
issuing thread, collecting each observed value with its thread. -/
def runReg {V : Type} :
    List (ThreadId × RegOp V) → Registry V → List (ThreadId × Option (Trace V)) × Registry V
  | [], r => ([], r)
  | (tid, op) :: ops, r =>
      let p := regStep tid op r
      let rest := runReg ops p.2
      ((tid, p.1) :: rest.1, rest.2)

/-- The subsequence of a script issued by one thread. -/
def threadOps {V : Type} (tid : ThreadId) (script : List (ThreadId × RegOp V)) :
    List (RegOp V) :=
  script.filterMap fun p => if p.1 = tid then some p.2 else none

/-- The subsequence of observed values belonging to one thread. -/
def threadOuts {V : Type} (tid : ThreadId) (outs : List (ThreadId × Option (Trace V))) :
    List (Option (Trace V)) :=
  outs.filterMap fun p => if p.1 = tid then some p.2 else none

/-- Modelled from the spec: the text sink behind the `fmt::Formatter`. Each
write call the renderer issues may be rejected by the sink; `sink k` is the
failure (if any) that the sink reports on its `k`-th write call. -/
abbrev Sink (E : Type) := Nat → Option E

/-- State of the formatter as the renderer drives it: how many write calls have
been issued so far, and the text the sink has accepted so far. -/
structure FmtState where
  calls : Nat
  out : String
  deriving DecidableEq, Repr

/-- One write call against the sink: on failure the sink's error is returned
unchanged; on success the text is appended and the call counter advances. -/
def fmtWrite {E : Type} (sink : Sink E) (st : FmtState) (s : String) : Except E FmtState :=
  match sink st.calls with
  | some e => .error e
  | none => .ok { calls := st.calls + 1, out := st.out ++ s }

/-- A `writeln!` call: writes the line followed by a newline. -/
def fmtWriteln {E : Type} (sink : Sink E) (st : FmtState) (s : String) : Except E FmtState :=
  fmtWrite sink st (s ++ "\n")

/-- The line text emitted for one item by `NameDisplay for Trace` in
`src/ketos/trace.rs`: the twelve-arm match, with identifiers resolved through
`names.get`. -/
def itemLine (names : NameStore) : TraceItem → String
  | .CallCode m n => "  In " ++ names.get m ++ ", function " ++ names.get n
  | .CallExpr m => "  In " ++ names.get m ++ ", call expression"
  | .CallLambda m => "  In " ++ names.get m ++ ", lambda"
  | .CallMacro m n => "  In " ++ names.get m ++ ", macro expansion " ++ names.get n
  | .CallOperator m n => "  In " ++ names.get m ++ ", operator " ++ names.get n
  | .CallSys n => "  In system function " ++ names.get n
  | .Define m n => "  In " ++ names.get m ++ ", define " ++ names.get n
  | .DefineConst m n => "  In " ++ names.get m ++ ", const " ++ names.get n
  | .DefineLambda m => "  In " ++ names.get m ++ ", lambda"
  | .DefineMacro m n => "  In " ++ names.get m ++ ", macro " ++ names.get n
  | .DefineStruct m n => "  In " ++ names.get m ++ ", struct " ++ names.get n
  | .UseModule m n => "  In " ++ names.get m ++ ", use " ++ names.get n

/-- The item loop of `NameDisplay for Trace`: one `writeln!` per item, in item
order, aborting at the first failed write (the `?` operator). -/
def fmtItems {E : Type} (names : NameStore) (sink : Sink E) :
    List TraceItem → FmtState → Except E FmtState
  | [], st => .ok st
  | item :: rest, st =>
      match fmtWriteln sink st (itemLine names item) with
      | .error e => .error e
      | .ok st1 => fmtItems names sink rest st1

/-- The renderer `NameDisplay for Trace::fmt`: all item lines in order, then,
when an expression is present, `f.write_str("    ")`, the pretty-printed
expression at indent 4, and `f.write_char('\n')`; nothing further when the
expression is absent. The external `pretty_print` (modelled from the spec:
`print(sink, resolver, value, indent) -> text`, absent from the visible
sources) is the parameter `pp`; its output goes through the sink as one write.
The trace is consumed by shared borrow: it is an unchanged input value here. -/
def fmtTrace {V E : Type} (names : NameStore) (pp : NameStore → V → Nat → String)
    (sink : Sink E) (t : Trace V) (st : FmtState) : Except E FmtState :=
  match fmtItems names sink t.items st with
  | .error e => .error e
  | .ok st1 =>
      match t.expr with
      | none => .ok st1
      | some expr =>
          match fmtWrite sink st1 "    " with
          | .error e => .error e
          | .ok st2 =>
              match fmtWrite sink st2 (pp names expr 4) with
              | .error e => .error e
              | .ok st3 => fmtWrite sink st3 "\n"

/-- A sink that accepts every write. -/
def okSink (E : Type) : Sink E :=
  fun _ => none

/-- A sink that rejects its very first write (and every later one) with
error `0`, exercising the renderer's failure path. -/
def failSink : Sink Nat :=
  fun _ => some 0

/-- Applying `take_expr` once, keeping only the post-state, as repeated calls do. -/
def takeExprStep {V : Type} (t : Trace V) : Trace V :=
  (Trace.take_expr t).2

/-- Helper: a successful `fmtWrite` means the sink accepted the current write
call, and the call counter advanced by one. -/
theorem fmtWrite_ok_calls {E : Type} {sink : Sink E} {st : FmtState} {s : String}
    {st' : FmtState} (h : fmtWrite sink st s = .ok st') :
    sink st.calls = none ∧ st'.calls = st.calls + 1 := by
  unfold fmtWrite at h
  cases hs : sink st.calls with
  | none =>
      rw [hs] at h
      refine ⟨rfl, ?_⟩
      cases h
      rfl
  | some e => rw [hs] at h; exact absurd h (by simp)

/-- Helper: a failed `fmtWrite` returns exactly the error the sink reported on
the current write call. -/
theorem fmtWrite_error_src {E : Type} {sink : Sink E} {st : FmtState} {s : String}
    {e : E} (h : fmtWrite sink st s = .error e) : sink st.calls = some e := by
  unfold fmtWrite at h
  cases hs : sink st.calls with
  | none => rw [hs] at h; exact absurd h (by simp)
  | some e2 =>
      rw [hs] at h
      simp only [Except.error.injEq] at h
      subst h
      rfl

/-- Helper: a successful item loop consumed a consecutive block of write
calls, all accepted by the sink. -/
theorem fmtItems_ok_span {E : Type} (names : NameStore) (sink : Sink E) :
    ∀ (items : List TraceItem) (st st' : FmtState),
      fmtItems names sink items st = .ok st' →
      st.calls ≤ st'.calls ∧ ∀ j, st.calls ≤ j → j < st'.calls → sink j = none := by
  intro items
  induction items with
  | nil =>
      intro st st' h
      simp only [fmtItems, Except.ok.injEq] at h
      subst h
      exact ⟨le_refl _, fun j h1 h2 => absurd h2 (by omega)⟩
  | cons item rest ih =>
      intro st st' h
      cases hw : fmtWriteln sink st (itemLine names item) with
      | error e2 =>
          simp only [fmtItems, hw] at h
          exact Except.noConfusion h
      | ok st1 =>
          simp only [fmtItems, hw] at h
          obtain ⟨hnone, hc⟩ := fmtWrite_ok_calls hw
          obtain ⟨hle, hni⟩ := ih st1 st' h
          refine ⟨by omega, ?_⟩
          intro j h1 h2
          by_cases hj : j = st.calls
          · rw [hj]; exact hnone
          · exact hni j (by omega) h2

/-- Helper: a failed item loop fails with the sink's error on the first write
call the sink rejected; every earlier write was accepted. -/
theorem fmtItems_error_first {E : Type} (names : NameStore) (sink : Sink E) :
    ∀ (items : List TraceItem) (st : FmtState) (e : E),
      fmtItems names sink items st = .error e →
      ∃ k, st.calls ≤ k ∧ sink k = some e ∧ ∀ j, st.calls ≤ j → j < k → sink j = none := by
  intro items
  induction items with
  | nil =>
      intro st e h
      simp only [fmtItems] at h
      exact Except.noConfusion h
  | cons item rest ih =>
      intro st e h
      cases hw : fmtWriteln sink st (itemLine names item) with
      | error e2 =>
          simp only [fmtItems, hw, Except.error.injEq] at h
          subst h
          exact ⟨st.calls, le_refl _, fmtWrite_error_src hw,
            fun j h1 h2 => absurd h2 (by omega)⟩
      | ok st1 =>
          simp only [fmtItems, hw] at h
          obtain ⟨hnone, hc⟩ := fmtWrite_ok_calls hw
          obtain ⟨k, hk1, hk2, hk3⟩ := ih st1 e h
          refine ⟨k, by omega, hk2, ?_⟩
          intro j h1 h2
          by_cases hj : j = st.calls
          · rw [hj]; exact hnone
          · exact hk3 j (by omega) h2

/-- Helper: against a sink that accepts every write, the item loop succeeds. -/
theorem fmtItems_okSink_ok (E : Type) (names : NameStore) :
    ∀ (items : List TraceItem) (st : FmtState),
      ∃ st', fmtItems names (okSink E) items st = .ok st' := by
  intro items
  induction items with
  | nil => intro st; exact ⟨st, rfl⟩
  | cons item rest ih =>
      intro st
      obtain ⟨st', h⟩ := ih ⟨st.calls + 1, st.out ++ (itemLine names item ++ "\n")⟩
      refine ⟨st', ?_⟩
      simp only [fmtItems, fmtWriteln, fmtWrite, okSink]
      exact h

/-- Helper: against a sink that accepts every write, the whole renderer
succeeds: it has no failure of its own. -/
theorem fmtTrace_okSink_ok {V E : Type} (names : NameStore)
    (pp : NameStore → V → Nat → String) (t : Trace V) :
    ∀ st : FmtState, ∃ st', fmtTrace names pp (okSink E) t st = .ok st' := by
  intro st
  obtain ⟨st1, h1⟩ := fmtItems_okSink_ok E names t.items st
  cases he : t.expr with
  | none => exact ⟨st1, by simp only [fmtTrace, h1, he]⟩
  | some expr =>
      refine ⟨⟨st1.calls + 1 + 1 + 1, st1.out ++ "    " ++ pp names expr 4 ++ "\n"⟩, ?_⟩
      simp only [fmtTrace, h1, he, fmtWrite, okSink]

/-- C1: after `set_traceback t`, the first `take_traceback` returns `some t`, a
second `take_traceback` returns `none`, and a subsequent `get_traceback`
returns `none`: the destructive read empties the per-thread slot exactly once. -/
theorem registry_take_law {V : Type} (t : Trace V) (s : Slot V) :
    (take_traceback (set_traceback t s)).1 = some t
    ∧ (take_traceback (take_traceback (set_traceback t s)).2).1 = none
    ∧ (get_traceback (take_traceback (take_traceback (set_traceback t s)).2).2).1 = none :=
  ⟨rfl, rfl, rfl⟩

/-- C2: for a trace whose expression slot holds `some e`, the first `take_expr`
returns `some e`, and after one or more `take_expr` calls (each leaving behind
its post-state) every further `take_expr` returns `none`: the expression slot
is single-consumption. -/
theorem take_expr_single_consumption {V : Type} (t : Trace V) (e : V) (n : Nat)
    (h : t.expr = some e) :
    (Trace.take_expr t).1 = some e
    ∧ (Trace.take_expr (takeExprStep^[n + 1] t)).1 = none := by
  refine ⟨by simp [Trace.take_expr, h], ?_⟩
  rw [Function.iterate_succ_apply']
  rfl

/-- Witness for C2 at a concrete trace holding expression `7`. -/
theorem take_expr_single_consumption_witness :
    (Trace.take_expr (Trace.new ([] : List TraceItem) (some 7))).1 = some 7
    ∧ (Trace.take_expr (takeExprStep^[0 + 1] (Trace.new ([] : List TraceItem) (some 7)))).1
        = none :=
  take_expr_single_consumption (Trace.new [] (some 7)) 7 0 rfl

/-- C3: after `set_traceback t`, `get_traceback` returns `some t` (the clone of
the stored value), the slot is unchanged, a repeated `get_traceback` returns
the same value, and mutating the returned duplicate by `take_expr` (fourth
conjunct: the duplicate ends with an empty expression slot) does not affect the
stored value (fifth conjunct: the slot still holds `t`, original expression
included). -/
theorem registry_get_round_trip {V : Type} (t : Trace V) (s : Slot V) :
    (get_traceback (set_traceback t s)).1 = some t
    ∧ (get_traceback (set_traceback t s)).2 = set_traceback t s
    ∧ (get_traceback (get_traceback (set_traceback t s)).2).1 = some t
    ∧ ((get_traceback (set_traceback t s)).1.map fun d => (Trace.take_expr d).2)
        = some { t with expr := none }
    ∧ (get_traceback (set_traceback t s)).2 = some t :=
  ⟨rfl, rfl, rfl, rfl, rfl⟩

/-- C6: `Trace::new` stores exactly the input items in the exact input order
(no sorting, deduplication, or other modification), and `Trace::single` stores
the one-item list; both constructors are total functions, so they never fail. -/
theorem new_preserves_items {V : Type} (items : List TraceItem) (expr : Option V)
    (item : TraceItem) :
    (Trace.new items expr).items = items ∧ (Trace.single item expr).items = [item] :=
  ⟨rfl, rfl⟩

/-- C7: after `clear_traceback`, regardless of any prior sequence of
`set`/`get`/`take`/`clear` operations on the same thread's slot,
`get_traceback` and `take_traceback` both return `none`; clearing an
already-empty slot leaves it empty (no effect). -/
theorem clear_traceback_empties {V : Type} (ops : List (RegOp V)) (s : Slot V) :
    (get_traceback (clear_traceback (runSlot ops s).2)).1 = none
    ∧ (take_traceback (clear_traceback (runSlot ops s).2)).1 = none
    ∧ clear_traceback (none : Slot V) = none :=
  ⟨rfl, rfl, rfl⟩

/-- C10: the registry slot is strictly per-thread. For every interleaved
script of `set`/`get`/`take`/`clear` operations tagged with issuing threads,
the values a thread observes, and its final slot, are exactly those of running
its own subsequence alone against its own slot: no thread ever observes a
value stored by another thread. -/
theorem registry_thread_isolation {V : Type} (script : List (ThreadId × RegOp V))
    (r : Registry V) (tid : ThreadId) :
    threadOuts tid (runReg script r).1 = (runSlot (threadOps tid script) (r tid)).1
    ∧ (runReg script r).2 tid = (runSlot (threadOps tid script) (r tid)).2 := by
  induction script generalizing r with
  | nil => exact ⟨rfl, rfl⟩
  | cons hd tl ih =>
      obtain ⟨t, op⟩ := hd
      by_cases h : t = tid
      · subst h
        have hupd : Function.update r t (slotStep op (r t)).2 t = (slotStep op (r t)).2 :=
          Function.update_same t _ r
        simp only [runReg, regStep, threadOps, threadOuts, List.filterMap_cons, if_pos rfl,
          runSlot]
        have := ih (Function.update r t (slotStep op (r t)).2)
        simp only [threadOps, threadOuts] at this
        rw [hupd] at this
        refine ⟨?_, ?_⟩ <;> simp [this.1, this.2]
      · have hupd : Function.update r t (slotStep op (r t)).2 tid = r tid :=
          Function.update_noteq (fun hc => h hc.symm) _ r
        simp only [runReg, regStep, threadOps, threadOuts, List.filterMap_cons, if_neg h]
        have := ih (Function.update r t (slotStep op (r t)).2)
        simp only [threadOps, threadOuts] at this
        rw [hupd] at this
        refine ⟨?_, ?_⟩ <;> simp [h, this.1, this.2]

/-- C9: `take_expr` mutates only the expression slot: after any number of
`take_expr` calls the item sequence is unchanged in content and order. -/
theorem take_expr_preserves_items {V : Type} (t : Trace V) (n : Nat) :
    (takeExprStep^[n] t).items = t.items := by
  induction n with
  | zero => rfl
  | succ k ih =>
      rw [Function.iterate_succ_apply']
      exact ih

/-- C5: rendering `Trace::single(CallSys(name="open-file"), None)` against an
accepting sink produces exactly the text of one write,
`  In system function open-file` followed by a newline, and nothing else
(one write call, and the output is exactly that line). -/
theorem render_single_callsys {V E : Type} (names : NameStore)
    (pp : NameStore → V → Nat → String) (n : Name) (h : names.get n = "open-file") :
    fmtTrace names pp (okSink E) (Trace.single (.CallSys n) none) { calls := 0, out := "" }
      = .ok { calls := 1, out := "  In system function open-file\n" } := by
  simp only [fmtTrace, Trace.single, Trace.new, fmtItems, fmtWriteln, fmtWrite, okSink,
    itemLine, h]
  rfl

/-- Witness for C5 at a concrete name store resolving the name to
`open-file`. -/
theorem render_single_callsys_witness :
    fmtTrace (NameStore.mk fun _ => "open-file") (fun _ (_ : Nat) _ => "") (okSink Unit)
        (Trace.single (.CallSys 0) none) { calls := 0, out := "" }
      = .ok { calls := 1, out := "  In system function open-file\n" } :=
  render_single_callsys (NameStore.mk fun _ => "open-file") (fun _ _ _ => "") 0 rfl

/-- C4: rendering a trace with items `[Define(scope=main, name=x),
CallOperator(scope=main, name=+)]` and a present expression emits, in order,
the two-space-indented `Define` line, then the `CallOperator` line (wordings
per the variant's literal format, identifiers resolved through the name
store), then four spaces, the pretty-printed expression at indentation level
4, and a trailing newline; with the expression absent, nothing is emitted
after the item lines. -/
theorem render_define_operator_expr {V E : Type} (names : NameStore)
    (pp : NameStore → V → Nat → String) (m x p : Name) (e : V)
    (hm : names.get m = "main") (hx : names.get x = "x") (hp : names.get p = "+") :
    fmtTrace names pp (okSink E)
        (Trace.new [.Define m x, .CallOperator m p] (some e)) { calls := 0, out := "" }
      = .ok ⟨5, "  In main, define x\n  In main, operator +\n    " ++ pp names e 4 ++ "\n"⟩
    ∧ fmtTrace names pp (okSink E)
        (Trace.new [.Define m x, .CallOperator m p] none) { calls := 0, out := "" }
      = .ok ⟨2, "  In main, define x\n  In main, operator +\n"⟩ := by
  constructor <;>
    · simp only [fmtTrace, Trace.new, fmtItems, fmtWriteln, fmtWrite, okSink, itemLine,
        hm, hx, hp]
      rfl

/-- Witness for C4 at a concrete name store (`0 ↦ main`, `1 ↦ x`, `2 ↦ +`) and
a concrete pretty-printer rendering the expression as `(+ 1 2)`. -/
theorem render_define_operator_expr_witness :
    fmtTrace (NameStore.mk fun k => if k = 0 then "main" else if k = 1 then "x" else "+")
        (fun _ (_ : Nat) _ => "(+ 1 2)") (okSink Unit)
        (Trace.new [.Define 0 1, .CallOperator 0 2] (some 5)) { calls := 0, out := "" }
      = .ok ⟨5, "  In main, define x\n  In main, operator +\n    " ++ "(+ 1 2)" ++ "\n"⟩
    ∧ fmtTrace (NameStore.mk fun k => if k = 0 then "main" else if k = 1 then "x" else "+")
        (fun _ (_ : Nat) _ => "(+ 1 2)") (okSink Unit)
        (Trace.new [.Define 0 1, .CallOperator 0 2] none) { calls := 0, out := "" }
      = .ok ⟨2, "  In main, define x\n  In main, operator +\n"⟩ :=
  render_define_operator_expr
    (NameStore.mk fun k => if k = 0 then "main" else if k = 1 then "x" else "+")
    (fun _ _ _ => "(+ 1 2)") 0 1 2 5 rfl rfl rfl

/-- C8: rendering fails only when a write to the underlying text sink fails.
When the renderer returns an error, that error is exactly the one the sink
reported on the first write call it rejected, every earlier write having been
accepted (rendering stopped immediately at the failing write); and against a
sink that accepts every write, rendering always succeeds (the renderer
introduces no error of its own). The trace is a shared-borrow input: the
renderer is a pure function of an unchanged `Trace` value. -/
theorem render_error_propagation {V E : Type} (names : NameStore)
    (pp : NameStore → V → Nat → String) (sink : Sink E) (t : Trace V)
    (st : FmtState) (e : E) (h : fmtTrace names pp sink t st = .error e) :
    (∃ k, st.calls ≤ k ∧ sink k = some e ∧ ∀ j, st.calls ≤ j → j < k → sink j = none)
    ∧ ∀ st0 : FmtState, ∃ st', fmtTrace names pp (okSink E) t st0 = .ok st' := by
  refine ⟨?_, fmtTrace_okSink_ok names pp t⟩
  cases hi : fmtItems names sink t.items st with
  | error e2 =>
      simp only [fmtTrace, hi, Except.error.injEq] at h
      subst h
      exact fmtItems_error_first names sink t.items st e2 hi
  | ok st1 =>
      obtain ⟨hle1, hni1⟩ := fmtItems_ok_span names sink t.items st st1 hi
      cases he : t.expr with
      | none =>
          simp only [fmtTrace, hi, he] at h
          exact Except.noConfusion h
      | some expr =>
          simp only [fmtTrace, hi, he] at h
          cases h2 : fmtWrite sink st1 "    " with
          | error e2 =>
              rw [h2] at h
              simp only [Except.error.injEq] at h
              subst h
              refine ⟨st1.calls, by omega, fmtWrite_error_src h2, ?_⟩
              intro j hj1 hj2
              exact hni1 j hj1 hj2
          | ok st2 =>
              rw [h2] at h
              simp only [] at h
              obtain ⟨hn2, hc2⟩ := fmtWrite_ok_calls h2
              cases h3 : fmtWrite sink st2 (pp names expr 4) with
              | error e3 =>
                  rw [h3] at h
                  simp only [Except.error.injEq] at h
                  subst h
                  refine ⟨st2.calls, by omega, fmtWrite_error_src h3, ?_⟩
                  intro j hj1 hj2
                  by_cases hj : j = st1.calls
                  · rw [hj]; exact hn2
                  · exact hni1 j hj1 (by omega)
              | ok st3 =>
                  rw [h3] at h
                  simp only [] at h
                  obtain ⟨hn3, hc3⟩ := fmtWrite_ok_calls h3
                  refine ⟨st3.calls, by omega, fmtWrite_error_src h, ?_⟩
                  intro j hj1 hj2
                  by_cases hja : j = st2.calls
                  · rw [hja]; exact hn3
                  · by_cases hjb : j = st1.calls
                    · rw [hjb]; exact hn2
                    · exact hni1 j hj1 (by omega)

/-- Witness for C8 at a sink that rejects its first write: rendering a
one-item trace fails with the sink's error at write call 0. -/
theorem render_error_propagation_witness :
    (∃ k, (FmtState.mk 0 "").calls ≤ k ∧ failSink k = some 0
      ∧ ∀ j, (FmtState.mk 0 "").calls ≤ j → j < k → failSink j = none)
    ∧ ∀ st0 : FmtState, ∃ st', fmtTrace (NameStore.mk fun _ => "s") (fun _ (_ : Nat) _ => "")
        (okSink Nat) (Trace.single (.CallSys 0) none) st0 = .ok st' :=
  render_error_propagation (NameStore.mk fun _ => "s") (fun _ _ _ => "") failSink
    (Trace.single (.CallSys 0) none) (FmtState.mk 0 "") 0 rfl

end Ketos
